import Mathlib

/-!
Verification of the `wasm-webidl-bindings` data model (`src/ast.rs`).

The development shallowly embeds the arena-backed tables (`WebidlTypes`,
`FunctionBindings`, `Binds`), the AST payload types, and the semantic
builder actions (`BuildAstActions`' `text::Actions` implementation).
Arena ids (`id_arena::Id`) are modelled as allocation positions (`Nat`);
the Rust `HashMap` of names is modelled as an association list in which
the most recent insertion is found first, which matches `HashMap::insert`'s
overwriting (last-writer-wins) lookup semantics.  Host-module handles
(`walrus::TypeId`, `walrus::FunctionId`) are opaque to this crate and are
modelled as their module-space indices.
-/

namespace WasmWebidlBindings

/-- Host module function-type handle (`walrus::TypeId`), modelled as the
module-space type index. -/
abbrev TypeId := Nat

/-- Host module function handle (`walrus::FunctionId`), modelled as the
module-space function index. -/
abbrev FunctionId := Nat

/-- `walrus::ValType`. -/
inductive ValType
  | I32
  | I64
  | F32
  | F64
  | V128
  | Anyref
deriving DecidableEq, Repr

/-- `WebidlScalarType` from `src/ast.rs`. -/
inductive WebidlScalarType
  | Any
  | Boolean
  | Byte
  | Octet
  | Long
  | UnsignedLong
  | Short
  | UnsignedShort
  | LongLong
  | UnsignedLongLong
  | Float
  | UnrestrictedFloat
  | Double
  | UnrestrictedDouble
  | DomString
  | ByteString
  | UsvString
  | Object
  | Symbol
  | ArrayBuffer
  | DataView
  | Int8Array
  | Int16Array
  | Int32Array
  | Uint8Array
  | Uint16Array
  | Uint32Array
  | Uint8ClampedArray
  | Float32Array
  | Float64Array
deriving DecidableEq, Repr

/-- `WebidlTypeRef`: either an `Id<WebidlCompoundType>` into the type table's
arena (modelled as the allocation position) or a scalar. -/
inductive WebidlTypeRef
  | Id (id : Nat)
  | Scalar (s : WebidlScalarType)
deriving DecidableEq, Repr

/-- `WebidlFunctionKindMethod`. -/
structure WebidlFunctionKindMethod where
  ty : WebidlTypeRef
deriving DecidableEq, Repr

/-- `WebidlFunctionKind`. -/
inductive WebidlFunctionKind
  | Static
  | Method (m : WebidlFunctionKindMethod)
  | Constructor
deriving DecidableEq, Repr

/-- `WebidlFunction`. -/
structure WebidlFunction where
  kind : WebidlFunctionKind
  params : List WebidlTypeRef
  result : Option WebidlTypeRef
deriving DecidableEq, Repr

/-- `WebidlDictionaryField`. -/
structure WebidlDictionaryField where
  name : String
  ty : WebidlTypeRef
deriving DecidableEq, Repr

/-- `WebidlDictionary`. -/
structure WebidlDictionary where
  fields : List WebidlDictionaryField
deriving DecidableEq, Repr

/-- `WebidlEnumeration`. -/
structure WebidlEnumeration where
  values : List String
deriving DecidableEq, Repr

/-- `WebidlUnion`. -/
structure WebidlUnion where
  members : List WebidlTypeRef
deriving DecidableEq, Repr

/-- `WebidlCompoundType`, the type-table arena payload. -/
inductive WebidlCompoundType
  | Function (f : WebidlFunction)
  | Dictionary (d : WebidlDictionary)
  | Enumeration (e : WebidlEnumeration)
  | Union (u : WebidlUnion)
deriving DecidableEq, Repr

/-- `OutgoingBindingExpression`.  The per-variant payload structs of
`src/ast.rs` are inlined into the constructors (the `Dict` payload is
recursive, so its fields could not live in a separate Lean structure). -/
inductive OutgoingBindingExpression
  | As (ty : WebidlTypeRef) (idx : Nat)
  | Utf8Str (ty : WebidlTypeRef) (offset : Nat) (length : Nat)
  | Utf8CStr (ty : WebidlTypeRef) (offset : Nat)
  | I32ToEnum (ty : WebidlTypeRef) (idx : Nat)
  | View (ty : WebidlTypeRef) (offset : Nat) (length : Nat)
  | Copy (ty : WebidlTypeRef) (offset : Nat) (length : Nat)
  | Dict (ty : WebidlTypeRef) (fields : List OutgoingBindingExpression)
  | BindExport (ty : WebidlTypeRef) (binding : Nat) (idx : Nat)
deriving Repr

/-- `IncomingBindingExpression`; `Box<IncomingBindingExpression>` children are
plain recursive occurrences, and the `binding : Id<FunctionBinding>` fields
are modelled as allocation positions. -/
inductive IncomingBindingExpression
  | Get (idx : Nat)
  | As (ty : ValType) (expr : IncomingBindingExpression)
  | AllocUtf8Str (alloc_func_name : String) (expr : IncomingBindingExpression)
  | AllocCopy (alloc_func_name : String) (expr : IncomingBindingExpression)
  | EnumToI32 (ty : WebidlTypeRef) (expr : IncomingBindingExpression)
  | Field (idx : Nat) (expr : IncomingBindingExpression)
  | BindImport (ty : TypeId) (binding : Nat) (expr : IncomingBindingExpression)
deriving Repr

/-- `OutgoingBindingMap`. -/
structure OutgoingBindingMap where
  bindings : List OutgoingBindingExpression
deriving Repr

/-- `IncomingBindingMap`. -/
structure IncomingBindingMap where
  bindings : List IncomingBindingExpression
deriving Repr

/-- `ImportBinding`. -/
structure ImportBinding where
  wasm_ty : TypeId
  webidl_ty : WebidlTypeRef
  params : OutgoingBindingMap
  result : IncomingBindingMap
deriving Repr

/-- `ExportBinding`. -/
structure ExportBinding where
  wasm_ty : TypeId
  webidl_ty : WebidlTypeRef
  params : IncomingBindingMap
  result : OutgoingBindingMap
deriving Repr

/-- `FunctionBinding`, the binding-table arena payload. -/
inductive FunctionBinding
  | Import (i : ImportBinding)
  | Export (e : ExportBinding)
deriving Repr

/-- `Bind`: a host function paired with a binding-table id. -/
structure Bind where
  func : FunctionId
  binding : Nat
deriving DecidableEq, Repr

/-- The common shape of `WebidlTypes` and `FunctionBindings`:
a `HashMap<String, Id>` of names (association list, most recent first), a
`Vec<Id>` of declaration indices, and an `Arena` of payloads addressed by
allocation position. -/
structure Registry (α : Type) where
  names : List (String × Nat) := []
  indices : List Nat := []
  arena : List α := []

/-- `by_name`: `self.names.get(name).cloned()`. -/
def Registry.by_name (r : Registry α) (name : String) : Option Nat :=
  r.names.lookup name

/-- `by_index`: `self.indices.get(index as usize).cloned()`. -/
def Registry.by_index (r : Registry α) (index : Nat) : Option Nat :=
  r.indices[index]?

/-- `get`: `self.arena.get(id.into()).and_then(T::get)`.  The argument
`proj` is the variant projection `T::get` generated by the
`impl_webidl_type_id!` / `impl_function_binding_id!` macros. -/
def Registry.get (r : Registry α) (proj : α → Option β) (id : Nat) : Option β :=
  (r.arena[id]?).bind proj

/-- `insert`: `let id = self.arena.alloc(ty.into()); self.indices.push(id); T::wrap(id)`.
The payload arrives already converted by `T::into`; the raw id returned here
is wrapped into the view-specific id newtype by the caller. -/
def Registry.insert (r : Registry α) (payload : α) : Nat × Registry α :=
  (r.arena.length,
    { r with
      arena := r.arena ++ [payload]
      indices := r.indices ++ [r.arena.length] })

/-- `names.insert(name, id)` on the Rust `HashMap`: overwrites any prior
mapping of the same name (last writer wins under `lookup`). -/
def Registry.recordName (r : Registry α) (name : String) (id : Nat) : Registry α :=
  { r with names := (name, id) :: r.names }

/-- Payload mutation through `get_mut`: when the arena slot holds the view's
variant, the caller may overwrite the `T` behind the returned `&mut T`
(the only write access it grants); otherwise nothing happens. -/
def Registry.mutateThrough (r : Registry α) (proj : α → Option β) (into : β → α)
    (id : Nat) (f : β → β) : Registry α :=
  match (r.arena[id]?).bind proj with
  | some t => { r with arena := r.arena.set id (into (f t)) }
  | none => r

/-- `<WebidlFunction as WebidlTypeId>::get` from `impl_webidl_type_id!`. -/
def WebidlFunction.get : WebidlCompoundType → Option WebidlFunction
  | .Function x => some x
  | _ => none

/-- `<WebidlDictionary as WebidlTypeId>::get`. -/
def WebidlDictionary.get : WebidlCompoundType → Option WebidlDictionary
  | .Dictionary x => some x
  | _ => none

/-- `<WebidlEnumeration as WebidlTypeId>::get`. -/
def WebidlEnumeration.get : WebidlCompoundType → Option WebidlEnumeration
  | .Enumeration x => some x
  | _ => none

/-- `<WebidlUnion as WebidlTypeId>::get`. -/
def WebidlUnion.get : WebidlCompoundType → Option WebidlUnion
  | .Union x => some x
  | _ => none

/-- `<ImportBinding as FunctionBindingId>::get` from `impl_function_binding_id!`. -/
def ImportBinding.get : FunctionBinding → Option ImportBinding
  | .Import x => some x
  | _ => none

/-- `<ExportBinding as FunctionBindingId>::get`. -/
def ExportBinding.get : FunctionBinding → Option ExportBinding
  | .Export x => some x
  | _ => none

/-- `WebidlTypes`. -/
abbrev WebidlTypes := Registry WebidlCompoundType

/-- `FunctionBindings`. -/
abbrev FunctionBindings := Registry FunctionBinding

/-- `Binds`: the bind table is a bare arena. -/
structure Binds where
  arena : List Bind := []

/-- `Binds::insert`. -/
def Binds.insert (b : Binds) (bind : Bind) : Nat × Binds :=
  (b.arena.length, ⟨b.arena ++ [bind]⟩)

/-- `Binds::get`. -/
def Binds.get (b : Binds) (id : Nat) : Option Bind :=
  b.arena[id]?

/-- `WebidlBindings`, the whole in-memory section. -/
structure WebidlBindings where
  types : WebidlTypes := {}
  bindings : FunctionBindings := {}
  binds : Binds := {}

/-- `BuildAstActions::webidl_type`: records the name (if present) for an
already-inserted compound type. -/
def webidl_type (s : WebidlBindings) (name : Option String) (ty : Nat) : WebidlBindings :=
  match name with
  | some n => { s with types := s.types.recordName n ty }
  | none => s

/-- `BuildAstActions::webidl_function`: defaults `kind` to `Static` and
`params` to `[]`, then inserts the function payload. -/
def webidl_function (s : WebidlBindings) (kind : Option WebidlFunctionKind)
    (params : Option (List WebidlTypeRef)) (result : Option WebidlTypeRef) :
    Nat × WebidlBindings :=
  let kind := kind.getD .Static
  let params := params.getD []
  let (id, types) := s.types.insert (.Function ⟨kind, params, result⟩)
  (id, { s with types := types })

/-- `BuildAstActions::webidl_dictionary`. -/
def webidl_dictionary (s : WebidlBindings) (fields : List WebidlDictionaryField) :
    Nat × WebidlBindings :=
  let (id, types) := s.types.insert (.Dictionary ⟨fields⟩)
  (id, { s with types := types })

/-- `BuildAstActions::webidl_enumeration`. -/
def webidl_enumeration (s : WebidlBindings) (values : List String) :
    Nat × WebidlBindings :=
  let (id, types) := s.types.insert (.Enumeration ⟨values⟩)
  (id, { s with types := types })

/-- `BuildAstActions::webidl_union`. -/
def webidl_union (s : WebidlBindings) (members : List WebidlTypeRef) :
    Nat × WebidlBindings :=
  let (id, types) := s.types.insert (.Union ⟨members⟩)
  (id, { s with types := types })

/-- `BuildAstActions::webidl_type_ref_named`:
`self.section.types.by_name(name).map(Into::into)`. -/
def webidl_type_ref_named (s : WebidlBindings) (name : String) : Option WebidlTypeRef :=
  (s.types.by_name name).map WebidlTypeRef.Id

/-- `BuildAstActions::webidl_type_ref_indexed`:
`self.section.types.by_index(idx).map(Into::into)`. -/
def webidl_type_ref_indexed (s : WebidlBindings) (idx : Nat) : Option WebidlTypeRef :=
  (s.types.by_index idx).map WebidlTypeRef.Id

/-- `BuildAstActions::import_binding`: insert, then record the name if present. -/
def import_binding (s : WebidlBindings) (name : Option String) (wasm_ty : TypeId)
    (webidl_ty : WebidlTypeRef) (params : OutgoingBindingMap)
    (result : IncomingBindingMap) : WebidlBindings :=
  let (id, bindings) := s.bindings.insert (.Import ⟨wasm_ty, webidl_ty, params, result⟩)
  match name with
  | some n => { s with bindings := bindings.recordName n id }
  | none => { s with bindings := bindings }

/-- `BuildAstActions::export_binding`. -/
def export_binding (s : WebidlBindings) (name : Option String) (wasm_ty : TypeId)
    (webidl_ty : WebidlTypeRef) (params : IncomingBindingMap)
    (result : OutgoingBindingMap) : WebidlBindings :=
  let (id, bindings) := s.bindings.insert (.Export ⟨wasm_ty, webidl_ty, params, result⟩)
  match name with
  | some n => { s with bindings := bindings.recordName n id }
  | none => { s with bindings := bindings }

/-- `BuildAstActions::bind`. -/
def bindAction (s : WebidlBindings) (func : FunctionId) (binding : Nat) : WebidlBindings :=
  { s with binds := (s.binds.insert ⟨func, binding⟩).2 }

/-- A `lookup` on an association list misses every key no pair carries. -/
theorem lookup_eq_none_of_forall {l : List (String × Nat)} {n : String}
    (h : ∀ p ∈ l, p.1 ≠ n) : l.lookup n = none := by
  induction l with
  | nil => rfl
  | cons p l ih =>
    obtain ⟨k, v⟩ := p
    have hk : (n == k) = false :=
      beq_eq_false_iff_ne.mpr fun e => h (k, v) (List.mem_cons_self _ _) e.symm
    simp only [List.lookup, hk]
    exact ih fun q hq => h q (List.mem_cons_of_mem _ hq)

/-- One step of a sequence of insertions, with the optional name recording
that `BuildAstActions::webidl_type` performs against the freshly returned id. -/
def insertSeqStep (r : Registry α) (d : α × Option String) : Nat × Registry α :=
  let p := r.insert d.1
  match d.2 with
  | some n => (p.1, p.2.recordName n p.1)
  | none => p

/-- A whole sequence of insertions, returning the ids in the order the
individual inserts returned them. -/
def insertSeq (r : Registry α) : List (α × Option String) → List Nat × Registry α
  | [] => ([], r)
  | d :: ds =>
    ((insertSeqStep r d).1 :: (insertSeq (insertSeqStep r d).2 ds).1,
      (insertSeq (insertSeqStep r d).2 ds).2)

theorem insertSeqStep_spec (r : Registry α) (d : α × Option String) :
    (insertSeqStep r d).2.arena = r.arena ++ [d.1] ∧
    (insertSeqStep r d).2.indices = r.indices ++ [r.arena.length] ∧
    (insertSeqStep r d).1 = r.arena.length := by
  obtain ⟨a, n⟩ := d
  cases n <;> simp [insertSeqStep, Registry.insert, Registry.recordName]

theorem insertSeq_spec (ds : List (α × Option String)) (r : Registry α) :
    (insertSeq r ds).1 = List.range' r.arena.length ds.length ∧
    (insertSeq r ds).2.arena = r.arena ++ ds.map Prod.fst ∧
    (insertSeq r ds).2.indices = r.indices ++ List.range' r.arena.length ds.length := by
  induction ds generalizing r with
  | nil => simp [insertSeq]
  | cons d ds ih =>
    obtain ⟨ha, hi, hid⟩ := insertSeqStep_spec r d
    obtain ⟨ih1, ih2, ih3⟩ := ih (insertSeqStep r d).2
    have hlen : (insertSeqStep r d).2.arena.length = r.arena.length + 1 := by
      rw [ha]; simp
    refine ⟨?_, ?_, ?_⟩
    · simp only [insertSeq, ih1, hid, hlen, List.length_cons, List.range'_succ]
    · simp only [insertSeq, ih2, ha, List.map_cons, List.append_assoc, List.cons_append,
        List.nil_append]
    · simp only [insertSeq, ih3, hi, hlen, List.length_cons, List.range'_succ,
        List.append_assoc, List.cons_append, List.nil_append]

/-- C2: a sequence of `N` insertions into the type table or the binding
table (each optionally followed by a name recording) returns the ids in
declaration order, stores the payloads at arena positions `0..N-1` in exact
insertion order, and `by_index i` for `i < N` returns the id the `i`-th
insert returned — regardless of which names were recorded. -/
theorem index_stability (ds : List (WebidlCompoundType × Option String))
    (bs : List (FunctionBinding × Option String)) (i j : Nat)
    (hi : i < ds.length) (hj : j < bs.length) :
    (insertSeq ({} : WebidlTypes) ds).1 = List.range ds.length ∧
    (insertSeq ({} : WebidlTypes) ds).2.arena = ds.map Prod.fst ∧
    (insertSeq ({} : WebidlTypes) ds).2.by_index i = some i ∧
    (insertSeq ({} : FunctionBindings) bs).1 = List.range bs.length ∧
    (insertSeq ({} : FunctionBindings) bs).2.arena = bs.map Prod.fst ∧
    (insertSeq ({} : FunctionBindings) bs).2.by_index j = some j := by
  obtain ⟨h1, h2, h3⟩ := insertSeq_spec ds ({} : WebidlTypes)
  obtain ⟨g1, g2, g3⟩ := insertSeq_spec bs ({} : FunctionBindings)
  refine ⟨?_, by simpa using h2, ?_, ?_, by simpa using g2, ?_⟩
  · simpa [← List.range_eq_range'] using h1
  · simp [Registry.by_index, h3, List.getElem?_range' _ _ hi]
  · simpa [← List.range_eq_range'] using g1
  · simp [Registry.by_index, g3, List.getElem?_range' _ _ hj]

/-- Witness for `index_stability` at a one-element type table and a
one-element binding table. -/
theorem index_stability_witness :
    0 < [((WebidlCompoundType.Union ⟨[]⟩ : WebidlCompoundType), some "u")].length ∧
    0 < [((FunctionBinding.Export ⟨0, .Scalar .Any, ⟨[]⟩, ⟨[]⟩⟩ : FunctionBinding),
        (none : Option String))].length ∧
    ((insertSeq ({} : WebidlTypes) [(WebidlCompoundType.Union ⟨[]⟩, some "u")]).1
        = List.range 1 ∧
      (insertSeq ({} : WebidlTypes) [(WebidlCompoundType.Union ⟨[]⟩, some "u")]).2.arena
        = [WebidlCompoundType.Union ⟨[]⟩] ∧
      (insertSeq ({} : WebidlTypes) [(WebidlCompoundType.Union ⟨[]⟩, some "u")]).2.by_index 0
        = some 0 ∧
      (insertSeq ({} : FunctionBindings)
          [(FunctionBinding.Export ⟨0, .Scalar .Any, ⟨[]⟩, ⟨[]⟩⟩, none)]).1 = List.range 1 ∧
      (insertSeq ({} : FunctionBindings)
          [(FunctionBinding.Export ⟨0, .Scalar .Any, ⟨[]⟩, ⟨[]⟩⟩, none)]).2.arena
        = [FunctionBinding.Export ⟨0, .Scalar .Any, ⟨[]⟩, ⟨[]⟩⟩] ∧
      (insertSeq ({} : FunctionBindings)
          [(FunctionBinding.Export ⟨0, .Scalar .Any, ⟨[]⟩, ⟨[]⟩⟩, none)]).2.by_index 0
        = some 0) :=
  ⟨by decide, by decide,
    index_stability [(WebidlCompoundType.Union ⟨[]⟩, some "u")]
      [(FunctionBinding.Export ⟨0, .Scalar .Any, ⟨[]⟩, ⟨[]⟩⟩, none)] 0 0
      (by decide) (by decide)⟩

/-- The shadowing scenario: two type declarations each insert a compound
type and then record the same name against the fresh id, exactly as
`BuildAstActions::webidl_type` does for named declarations. -/
def shadowScenario (s : WebidlBindings) (n : String) (t₁ t₂ : WebidlCompoundType) :
    Nat × Nat × WebidlBindings :=
  let r₁ := s.types.insert t₁
  let s₁ := webidl_type { s with types := r₁.2 } (some n) r₁.1
  let r₂ := s₁.types.insert t₂
  let s₂ := webidl_type { s₁ with types := r₂.2 } (some n) r₂.1
  (r₁.1, r₂.1, s₂)

/-- C3: recording the same name for two type-table entries makes `by_name`
resolve to the later entry's id, while the earlier entry keeps its
declaration index: `by_index` at the first entry's position still returns
the first id, whose arena slot still holds the first payload. -/
theorem name_shadowing (s : WebidlBindings) (n : String) (t₁ t₂ : WebidlCompoundType) :
    (shadowScenario s n t₁ t₂).2.2.types.by_name n = some (shadowScenario s n t₁ t₂).2.1 ∧
    (shadowScenario s n t₁ t₂).2.2.types.by_index s.types.indices.length
      = some (shadowScenario s n t₁ t₂).1 ∧
    (shadowScenario s n t₁ t₂).2.2.types.arena[(shadowScenario s n t₁ t₂).1]?
      = some t₁ := by
  refine ⟨?_, ?_, ?_⟩
  · simp [shadowScenario, webidl_type, Registry.insert, Registry.recordName,
      Registry.by_name, List.lookup]
  · simp only [shadowScenario, webidl_type, Registry.insert, Registry.recordName,
      Registry.by_index, List.append_assoc]
    rw [List.getElem?_append_right (Nat.le_refl _)]
    simp
  · simp only [shadowScenario, webidl_type, Registry.insert, Registry.recordName,
      List.append_assoc]
    rw [List.getElem?_append_right (Nat.le_refl _)]
    simp

/-- C5: fetching a stored entry through a mismatched typed view returns
`none`: the `Function` view on a slot holding a `Dictionary`,
`Enumeration` or `Union`, the `Import` view on an `Export` slot, and the
`Export` view on an `Import` slot. -/
theorem mismatched_view_get (rt : WebidlTypes) (rb : FunctionBindings)
    (i₁ i₂ i₃ j₁ j₂ : Nat) (d : WebidlDictionary) (e : WebidlEnumeration)
    (u : WebidlUnion) (ib : ImportBinding) (eb : ExportBinding)
    (h₁ : rt.arena[i₁]? = some (.Dictionary d))
    (h₂ : rt.arena[i₂]? = some (.Enumeration e))
    (h₃ : rt.arena[i₃]? = some (.Union u))
    (h₄ : rb.arena[j₁]? = some (.Export eb))
    (h₅ : rb.arena[j₂]? = some (.Import ib)) :
    rt.get WebidlFunction.get i₁ = none ∧
    rt.get WebidlFunction.get i₂ = none ∧
    rt.get WebidlFunction.get i₃ = none ∧
    rb.get ImportBinding.get j₁ = none ∧
    rb.get ExportBinding.get j₂ = none := by
  refine ⟨?_, ?_, ?_, ?_, ?_⟩ <;>
    simp [Registry.get, h₁, h₂, h₃, h₄, h₅, WebidlFunction.get, ImportBinding.get,
      ExportBinding.get]

/-- Witness for `mismatched_view_get` on concrete three-entry and
two-entry tables. -/
theorem mismatched_view_get_witness :
    Registry.get
        ({ names := [], indices := [0, 1, 2],
           arena := [WebidlCompoundType.Dictionary ⟨[]⟩,
             WebidlCompoundType.Enumeration ⟨[]⟩,
             WebidlCompoundType.Union ⟨[]⟩] } : WebidlTypes)
        WebidlFunction.get 0 = none ∧
    Registry.get
        ({ names := [], indices := [0, 1, 2],
           arena := [WebidlCompoundType.Dictionary ⟨[]⟩,
             WebidlCompoundType.Enumeration ⟨[]⟩,
             WebidlCompoundType.Union ⟨[]⟩] } : WebidlTypes)
        WebidlFunction.get 1 = none ∧
    Registry.get
        ({ names := [], indices := [0, 1, 2],
           arena := [WebidlCompoundType.Dictionary ⟨[]⟩,
             WebidlCompoundType.Enumeration ⟨[]⟩,
             WebidlCompoundType.Union ⟨[]⟩] } : WebidlTypes)
        WebidlFunction.get 2 = none ∧
    Registry.get
        ({ names := [], indices := [0, 1],
           arena := [FunctionBinding.Export ⟨0, .Scalar .Any, ⟨[]⟩, ⟨[]⟩⟩,
             FunctionBinding.Import ⟨0, .Scalar .Any, ⟨[]⟩, ⟨[]⟩⟩] } : FunctionBindings)
        ImportBinding.get 0 = none ∧
    Registry.get
        ({ names := [], indices := [0, 1],
           arena := [FunctionBinding.Export ⟨0, .Scalar .Any, ⟨[]⟩, ⟨[]⟩⟩,
             FunctionBinding.Import ⟨0, .Scalar .Any, ⟨[]⟩, ⟨[]⟩⟩] } : FunctionBindings)
        ExportBinding.get 1 = none :=
  mismatched_view_get _ _ 0 1 2 0 1 ⟨[]⟩ ⟨[]⟩ ⟨[]⟩
    ⟨0, .Scalar .Any, ⟨[]⟩, ⟨[]⟩⟩ ⟨0, .Scalar .Any, ⟨[]⟩, ⟨[]⟩⟩
    rfl rfl rfl rfl rfl

/-- C6: an out-of-range index lookup and an unrecorded name lookup both
return `none` on any registry (type table or binding table alike). -/
theorem by_index_by_name_not_found {α : Type} (r : Registry α) (i : Nat) (n : String)
    (hi : r.indices.length ≤ i) (hn : ∀ p ∈ r.names, p.1 ≠ n) :
    r.by_index i = none ∧ r.by_name n = none := by
  refine ⟨?_, lookup_eq_none_of_forall hn⟩
  simp [Registry.by_index, List.getElem?_eq_none hi]

/-- Witness for `by_index_by_name_not_found` on a one-entry type table. -/
theorem by_index_by_name_not_found_witness :
    Registry.by_index
        ({ names := [("a", 0)], indices := [0],
           arena := [WebidlCompoundType.Enumeration ⟨[]⟩] } : WebidlTypes) 5 = none ∧
    Registry.by_name
        ({ names := [("a", 0)], indices := [0],
           arena := [WebidlCompoundType.Enumeration ⟨[]⟩] } : WebidlTypes) "b" = none :=
  by_index_by_name_not_found _ 5 "b" (by decide) (by decide)

/-- C8: payload mutation through `get_mut` (which can only rewrite the `T`
behind the returned reference, inside the arena) leaves `by_index` and
`by_name` untouched at every index and every name. -/
theorem mutate_preserves_lookup {α β : Type} (r : Registry α) (proj : α → Option β)
    (into : β → α) (id : Nat) (f : β → β) (i : Nat) (n : String) :
    (r.mutateThrough proj into id f).by_index i = r.by_index i ∧
    (r.mutateThrough proj into id f).by_name n = r.by_name n := by
  unfold Registry.mutateThrough
  cases h : (r.arena[id]?).bind proj <;> simp [Registry.by_index, Registry.by_name]

/-- C9: inserting a payload through a typed view and fetching with the id
that insert returned, through the same view, yields exactly the inserted
payload — for all six views. -/
theorem insert_get_same_view (rt : WebidlTypes) (rb : FunctionBindings)
    (f : WebidlFunction) (d : WebidlDictionary) (e : WebidlEnumeration)
    (u : WebidlUnion) (ib : ImportBinding) (eb : ExportBinding) :
    (rt.insert (.Function f)).2.get WebidlFunction.get (rt.insert (.Function f)).1
      = some f ∧
    (rt.insert (.Dictionary d)).2.get WebidlDictionary.get (rt.insert (.Dictionary d)).1
      = some d ∧
    (rt.insert (.Enumeration e)).2.get WebidlEnumeration.get
      (rt.insert (.Enumeration e)).1 = some e ∧
    (rt.insert (.Union u)).2.get WebidlUnion.get (rt.insert (.Union u)).1 = some u ∧
    (rb.insert (.Import ib)).2.get ImportBinding.get (rb.insert (.Import ib)).1
      = some ib ∧
    (rb.insert (.Export eb)).2.get ExportBinding.get (rb.insert (.Export eb)).1
      = some eb := by
  refine ⟨?_, ?_, ?_, ?_, ?_, ?_⟩ <;>
    simp [Registry.insert, Registry.get, WebidlFunction.get, WebidlDictionary.get,
      WebidlEnumeration.get, WebidlUnion.get, ImportBinding.get, ExportBinding.get]

/-- C10: `webidl_function` defaults a missing `kind` to `Static` and missing
`params` to the empty list, and stores `result` exactly as passed; with
explicit `kind` and `params` it stores them unchanged. -/
theorem webidl_function_defaulting (s : WebidlBindings) (k : WebidlFunctionKind)
    (ps : List WebidlTypeRef) (res : Option WebidlTypeRef) :
    (webidl_function s none none res).2.types.get WebidlFunction.get
        (webidl_function s none none res).1 = some ⟨.Static, [], res⟩ ∧
    (webidl_function s (some k) (some ps) res).2.types.get WebidlFunction.get
        (webidl_function s (some k) (some ps) res).1 = some ⟨k, ps, res⟩ := by
  constructor <;>
    simp [webidl_function, Registry.insert, Registry.get, WebidlFunction.get]

/-- A type-reference production as the text grammar delivers it, before the
builder resolves it. -/
inductive RawTypeRef
  | named (name : String)
  | indexed (idx : Nat)
  | scalar (s : WebidlScalarType)
deriving DecidableEq, Repr

/-- An unresolved `WebidlFunctionKind` production. -/
inductive RawFunctionKind
  | Static
  | Method (ty : RawTypeRef)
  | Constructor
deriving DecidableEq, Repr

/-- An unresolved compound-type production. -/
inductive RawCompound
  | function (kind : Option RawFunctionKind) (params : Option (List RawTypeRef))
      (result : Option RawTypeRef)
  | dictionary (fields : List (String × RawTypeRef))
  | enumeration (values : List String)
  | union (members : List RawTypeRef)
deriving DecidableEq, Repr

/-- An unresolved type-declaration production. -/
structure RawTypeDecl where
  name : Option String
  ty : RawCompound
deriving DecidableEq, Repr

/-- Modelled from the spec: the text-surface collaborator (whose driver is
not under `src/`) resolves each type-reference production through the
builder's lookups — `webidl_type_ref_named`, `webidl_type_ref_indexed`, the
scalar leaf constructors — and treats an absence signal as a hard parse
failure.  The error value carries the offending reference. -/
def resolveRef (s : WebidlBindings) : RawTypeRef → Except String WebidlTypeRef
  | .named n =>
    match webidl_type_ref_named s n with
    | some r => .ok r
    | none => .error n
  | .indexed i =>
    match webidl_type_ref_indexed s i with
    | some r => .ok r
    | none => .error (toString i)
  | .scalar sc => .ok (.Scalar sc)

/-- Resolve a list of type references left to right, failing fast. -/
def resolveRefs (s : WebidlBindings) : List RawTypeRef → Except String (List WebidlTypeRef)
  | [] => .ok []
  | t :: ts =>
    match resolveRef s t, resolveRefs s ts with
    | .ok r, .ok rs => .ok (r :: rs)
    | .error e, _ => .error e
    | _, .error e => .error e

/-- Resolve an optional type reference. -/
def resolveOptRef (s : WebidlBindings) :
    Option RawTypeRef → Except String (Option WebidlTypeRef)
  | none => .ok none
  | some t =>
    match resolveRef s t with
    | .ok r => .ok (some r)
    | .error e => .error e

/-- Resolve a function-kind production
(`webidl_function_kind_method` wraps the resolved reference). -/
def resolveKind (s : WebidlBindings) : RawFunctionKind → Except String WebidlFunctionKind
  | .Static => .ok .Static
  | .Method t =>
    match resolveRef s t with
    | .ok r => .ok (.Method ⟨r⟩)
    | .error e => .error e
  | .Constructor => .ok .Constructor

/-- Resolve an optional function kind. -/
def resolveOptKind (s : WebidlBindings) :
    Option RawFunctionKind → Except String (Option WebidlFunctionKind)
  | none => .ok none
  | some k =>
    match resolveKind s k with
    | .ok r => .ok (some r)
    | .error e => .error e

/-- Resolve an optional parameter list. -/
def resolveOptParams (s : WebidlBindings) :
    Option (List RawTypeRef) → Except String (Option (List WebidlTypeRef))
  | none => .ok none
  | some ts =>
    match resolveRefs s ts with
    | .ok rs => .ok (some rs)
    | .error e => .error e

/-- Resolve dictionary fields (`webidl_dictionary_field` pairs the name with
the resolved reference). -/
def resolveFields (s : WebidlBindings) :
    List (String × RawTypeRef) → Except String (List WebidlDictionaryField)
  | [] => .ok []
  | f :: fs =>
    match resolveRef s f.2, resolveFields s fs with
    | .ok r, .ok rs => .ok (⟨f.1, r⟩ :: rs)
    | .error e, _ => .error e
    | _, .error e => .error e

/-- Modelled from the spec: one type-declaration production — the
collaborator resolves the sub-productions bottom-up against the current
tables, calls the matching insert action (`webidl_function`,
`webidl_dictionary`, `webidl_enumeration`, `webidl_union`), and finally
`webidl_type` records the optional name against the fresh id.  Any absence
signal aborts the declaration. -/
def buildTypeDecl (s : WebidlBindings) (d : RawTypeDecl) : Except String WebidlBindings :=
  match d.ty with
  | .function kind params result =>
    match resolveOptKind s kind, resolveOptParams s params, resolveOptRef s result with
    | .ok k, .ok p, .ok res =>
      .ok (webidl_type (webidl_function s k p res).2 d.name (webidl_function s k p res).1)
    | .error e, _, _ => .error e
    | _, .error e, _ => .error e
    | _, _, .error e => .error e
  | .dictionary fs =>
    match resolveFields s fs with
    | .ok fields =>
      .ok (webidl_type (webidl_dictionary s fields).2 d.name (webidl_dictionary s fields).1)
    | .error e => .error e
  | .enumeration vs =>
    .ok (webidl_type (webidl_enumeration s vs).2 d.name (webidl_enumeration s vs).1)
  | .union ms =>
    match resolveRefs s ms with
    | .ok members =>
      .ok (webidl_type (webidl_union s members).2 d.name (webidl_union s members).1)
    | .error e => .error e

/-- Fold the declarations in the order the parser delivers them, failing fast. -/
def buildTypeDecls (s : WebidlBindings) : List RawTypeDecl → Except String WebidlBindings
  | [] => .ok s
  | d :: ds =>
    match buildTypeDecl s d with
    | .ok s' => buildTypeDecls s' ds
    | .error e => .error e

/-- Modelled from the spec: the parse entry point (the text-surface driver,
not under `src/`) creates a fresh, empty section, drives the builder over
the declaration productions, and returns the section only on success — a
failed build surfaces the error and hands back no model. -/
def parseTypeSection (ds : List RawTypeDecl) : Except String WebidlBindings :=
  buildTypeDecls {} ds

/-- The names the given type declarations record. -/
def declaredTypeNames : List RawTypeDecl → List String
  | [] => []
  | d :: ds => d.name.toList ++ declaredTypeNames ds

/-- The names a raw reference mentions. -/
def namedRefsOfRef : RawTypeRef → List String
  | .named n => [n]
  | _ => []

/-- The names a list of raw references mentions. -/
def namedRefsOfRefs : List RawTypeRef → List String
  | [] => []
  | t :: ts => namedRefsOfRef t ++ namedRefsOfRefs ts

/-- The names a function-kind production mentions. -/
def namedRefsOfKind : RawFunctionKind → List String
  | .Method t => namedRefsOfRef t
  | _ => []

/-- Lift a name collector over an optional production. -/
def namedRefsOfOpt (f : α → List String) : Option α → List String
  | some x => f x
  | none => []

/-- All names a compound-type production references. -/
def namedRefsOf : RawCompound → List String
  | .function kind params result =>
    namedRefsOfOpt namedRefsOfKind kind ++ namedRefsOfOpt namedRefsOfRefs params ++
      namedRefsOfOpt namedRefsOfRef result
  | .dictionary fs => namedRefsOfRefs (fs.map Prod.snd)
  | .enumeration _ => []
  | .union ms => namedRefsOfRefs ms

theorem webidl_type_names (s : WebidlBindings) (name : Option String) (id : Nat) :
    ∀ p ∈ (webidl_type s name id).types.names, p.1 ∈ name.toList ∨ p ∈ s.types.names := by
  cases name with
  | none => intro p hp; exact Or.inr hp
  | some n =>
    intro p hp
    rcases List.mem_cons.mp hp with h | h
    · exact Or.inl (by simp [h])
    · exact Or.inr h

theorem buildTypeDecl_names {s s' : WebidlBindings} {d : RawTypeDecl}
    (h : buildTypeDecl s d = .ok s') :
    ∀ p ∈ s'.types.names, p.1 ∈ d.name.toList ∨ p ∈ s.types.names := by
  cases d with
  | mk name ty =>
    cases ty with
    | function kind params result =>
      simp only [buildTypeDecl] at h
      split at h
      case h_2 => cases h
      case h_3 => cases h
      case h_4 => cases h
      case h_1 =>
        injection h with h
        subst h
        exact webidl_type_names _ _ _
    | dictionary fs =>
      simp only [buildTypeDecl] at h
      split at h
      case h_2 => cases h
      case h_1 =>
        injection h with h
        subst h
        exact webidl_type_names _ _ _
    | enumeration vs =>
      simp only [buildTypeDecl] at h
      injection h with h
      subst h
      exact webidl_type_names _ _ _
    | union ms =>
      simp only [buildTypeDecl] at h
      split at h
      case h_2 => cases h
      case h_1 =>
        injection h with h
        subst h
        exact webidl_type_names _ _ _

theorem buildTypeDecls_names {ds : List RawTypeDecl} {s₀ s : WebidlBindings}
    (h : buildTypeDecls s₀ ds = .ok s) :
    ∀ p ∈ s.types.names, p.1 ∈ declaredTypeNames ds ∨ p ∈ s₀.types.names := by
  induction ds generalizing s₀ with
  | nil =>
    injection h with h
    subst h
    exact fun p hp => Or.inr hp
  | cons d ds ih =>
    simp only [buildTypeDecls] at h
    split at h
    case h_2 => cases h
    case h_1 s₁ hd =>
      intro p hp
      rcases ih h p hp with h1 | h1
      · exact Or.inl (by simp [declaredTypeNames, h1])
      · rcases buildTypeDecl_names hd p h1 with h2 | h2
        · exact Or.inl (by simp [declaredTypeNames, h2])
        · exact Or.inr h2

/-- After a successful build from the empty section, a name no declaration
recorded resolves to nothing. -/
theorem build_unrecorded_name_none {pre : List RawTypeDecl} {s : WebidlBindings}
    {n : String} (hok : buildTypeDecls {} pre = .ok s)
    (hn : n ∉ declaredTypeNames pre) : webidl_type_ref_named s n = none := by
  have hkeys := buildTypeDecls_names hok
  have hall : ∀ p ∈ s.types.names, p.1 ≠ n := by
    intro p hp e
    rcases hkeys p hp with h | h
    · exact hn (e ▸ h)
    · have : ({} : WebidlBindings).types.names = [] := rfl
      rw [this] at h
      exact absurd h (List.not_mem_nil p)
  have : s.types.by_name n = none := lookup_eq_none_of_forall hall
  simp [webidl_type_ref_named, this]

theorem resolveRef_ok_refs {s : WebidlBindings} {t : RawTypeRef} {r : WebidlTypeRef}
    (h : resolveRef s t = .ok r) :
    ∀ n ∈ namedRefsOfRef t, webidl_type_ref_named s n ≠ none := by
  cases t with
  | named m =>
    intro n hn hnone
    have : n = m := by simpa [namedRefsOfRef] using hn
    subst this
    rw [resolveRef, hnone] at h
    cases h
  | indexed i => intro n hn; simp [namedRefsOfRef] at hn
  | scalar sc => intro n hn; simp [namedRefsOfRef] at hn

theorem resolveRefs_ok_refs {s : WebidlBindings} {ts : List RawTypeRef}
    {rs : List WebidlTypeRef} (h : resolveRefs s ts = .ok rs) :
    ∀ n ∈ namedRefsOfRefs ts, webidl_type_ref_named s n ≠ none := by
  induction ts generalizing rs with
  | nil => intro n hn; simp [namedRefsOfRefs] at hn
  | cons t ts ih =>
    simp only [resolveRefs] at h
    split at h
    case h_2 => cases h
    case h_3 => cases h
    case h_1 r rs' h1 h2 =>
      intro n hn
      rcases List.mem_append.mp hn with hm | hm
      · exact resolveRef_ok_refs h1 n hm
      · exact ih h2 n hm

theorem resolveFields_ok_refs {s : WebidlBindings} {fs : List (String × RawTypeRef)}
    {out : List WebidlDictionaryField} (h : resolveFields s fs = .ok out) :
    ∀ n ∈ namedRefsOfRefs (fs.map Prod.snd), webidl_type_ref_named s n ≠ none := by
  induction fs generalizing out with
  | nil => intro n hn; simp [namedRefsOfRefs] at hn
  | cons f fs ih =>
    simp only [resolveFields] at h
    split at h
    case h_2 => cases h
    case h_3 => cases h
    case h_1 r rs' h1 h2 =>
      intro n hn
      rcases List.mem_append.mp hn with hm | hm
      · exact resolveRef_ok_refs h1 n hm
      · exact ih h2 n hm

theorem resolveKind_ok_refs {s : WebidlBindings} {k : RawFunctionKind}
    {out : WebidlFunctionKind} (h : resolveKind s k = .ok out) :
    ∀ n ∈ namedRefsOfKind k, webidl_type_ref_named s n ≠ none := by
  cases k with
  | Static => intro n hn; simp [namedRefsOfKind] at hn
  | Constructor => intro n hn; simp [namedRefsOfKind] at hn
  | Method t =>
    simp only [resolveKind] at h
    split at h
    case h_2 => cases h
    case h_1 r h1 => exact resolveRef_ok_refs h1

theorem resolveOptKind_ok_refs {s : WebidlBindings} {kind : Option RawFunctionKind}
    {out : Option WebidlFunctionKind} (h : resolveOptKind s kind = .ok out) :
    ∀ n ∈ namedRefsOfOpt namedRefsOfKind kind, webidl_type_ref_named s n ≠ none := by
  cases kind with
  | none => intro n hn; simp [namedRefsOfOpt] at hn
  | some k =>
    simp only [resolveOptKind] at h
    split at h
    case h_2 => cases h
    case h_1 r h1 => exact resolveKind_ok_refs h1

theorem resolveOptParams_ok_refs {s : WebidlBindings} {params : Option (List RawTypeRef)}
    {out : Option (List WebidlTypeRef)} (h : resolveOptParams s params = .ok out) :
    ∀ n ∈ namedRefsOfOpt namedRefsOfRefs params, webidl_type_ref_named s n ≠ none := by
  cases params with
  | none => intro n hn; simp [namedRefsOfOpt] at hn
  | some ts =>
    simp only [resolveOptParams] at h
    split at h
    case h_2 => cases h
    case h_1 rs h1 => exact resolveRefs_ok_refs h1

theorem resolveOptRef_ok_refs {s : WebidlBindings} {result : Option RawTypeRef}
    {out : Option WebidlTypeRef} (h : resolveOptRef s result = .ok out) :
    ∀ n ∈ namedRefsOfOpt namedRefsOfRef result, webidl_type_ref_named s n ≠ none := by
  cases result with
  | none => intro n hn; simp [namedRefsOfOpt] at hn
  | some t =>
    simp only [resolveOptRef] at h
    split at h
    case h_2 => cases h
    case h_1 r h1 => exact resolveRef_ok_refs h1

/-- If a declaration builds successfully, every name it references was
resolvable against the tables at the time of the call. -/
theorem buildTypeDecl_ok_refs {s s' : WebidlBindings} {d : RawTypeDecl}
    (h : buildTypeDecl s d = .ok s') :
    ∀ n ∈ namedRefsOf d.ty, webidl_type_ref_named s n ≠ none := by
  cases d with
  | mk name ty =>
    cases ty with
    | function kind params result =>
      simp only [buildTypeDecl] at h
      split at h
      case h_2 => cases h
      case h_3 => cases h
      case h_4 => cases h
      case h_1 k p res h1 h2 h3 =>
        intro n hn
        simp only [namedRefsOf] at hn
        rcases List.mem_append.mp hn with hm | hm
        · rcases List.mem_append.mp hm with hm' | hm'
          · exact resolveOptKind_ok_refs h1 n hm'
          · exact resolveOptParams_ok_refs h2 n hm'
        · exact resolveOptRef_ok_refs h3 n hm
    | dictionary fs =>
      simp only [buildTypeDecl] at h
      split at h
      case h_2 => cases h
      case h_1 fields h1 => exact resolveFields_ok_refs h1
    | enumeration vs => intro n hn; simp [namedRefsOf] at hn
    | union ms =>
      simp only [buildTypeDecl] at h
      split at h
      case h_2 => cases h
      case h_1 members h1 => exact resolveRefs_ok_refs h1

theorem buildTypeDecls_append (s : WebidlBindings) (xs ys : List RawTypeDecl) :
    buildTypeDecls s (xs ++ ys) =
      match buildTypeDecls s xs with
      | .ok s' => buildTypeDecls s' ys
      | .error e => .error e := by
  induction xs generalizing s with
  | nil => rfl
  | cons d xs ih =>
    simp only [List.cons_append, buildTypeDecls]
    cases buildTypeDecl s d with
    | ok s' => exact ih s'
    | error e => rfl

/-- C7: `webidl_type_ref_named` resolves only names recorded by strictly
earlier type declarations: after any successful build of a prefix of
declarations, every name none of them recorded resolves to `none`. -/
theorem named_ref_no_forward (pre : List RawTypeDecl) (s : WebidlBindings) (n : String)
    (hok : parseTypeSection pre = .ok s) (hn : n ∉ declaredTypeNames pre) :
    webidl_type_ref_named s n = none :=
  build_unrecorded_name_none hok hn

/-- Witness for `named_ref_no_forward`: one declaration named `a`, then a
lookup of the never-recorded name `b`. -/
theorem named_ref_no_forward_witness :
    webidl_type_ref_named
      ⟨⟨[("a", 0)], [0], [WebidlCompoundType.Enumeration ⟨[]⟩]⟩, ⟨[], [], []⟩, ⟨[]⟩⟩
      "b" = none :=
  named_ref_no_forward [⟨some "a", .enumeration []⟩]
    ⟨⟨[("a", 0)], [0], [WebidlCompoundType.Enumeration ⟨[]⟩]⟩, ⟨[], [], []⟩, ⟨[]⟩⟩
    "b" rfl (by decide)

/-- C4: a build that hits an unresolved name reference fails: the parse
entry point returns an error and no model at all, no matter how many
declarations came before or would come after. -/
theorem failed_build_yields_no_model (pre post : List RawTypeDecl) (d : RawTypeDecl)
    (n : String) (href : n ∈ namedRefsOf d.ty) (hn : n ∉ declaredTypeNames pre) :
    (∃ msg, parseTypeSection (pre ++ d :: post) = .error msg) ∧
    ∀ m, parseTypeSection (pre ++ d :: post) ≠ .ok m := by
  have key : ∃ msg, parseTypeSection (pre ++ d :: post) = .error msg := by
    rw [parseTypeSection, buildTypeDecls_append]
    cases hpre : buildTypeDecls {} pre with
    | error e => exact ⟨e, rfl⟩
    | ok s =>
      have hnone : webidl_type_ref_named s n = none :=
        build_unrecorded_name_none hpre hn
      cases hd : buildTypeDecl s d with
      | ok s' => exact absurd hnone (buildTypeDecl_ok_refs hd n href)
      | error e => exact ⟨e, by simp [buildTypeDecls, hd]⟩
  refine ⟨key, fun m h => ?_⟩
  rcases key with ⟨msg, he⟩
  rw [he] at h
  cases h

/-- Witness for `failed_build_yields_no_model`: a single union declaration
referencing the never-declared name `x`. -/
theorem failed_build_yields_no_model_witness :
    (∃ msg, parseTypeSection [⟨none, .union [.named "x"]⟩] = .error msg) ∧
    ∀ m, parseTypeSection [⟨none, .union [.named "x"]⟩] ≠ .ok m := by
  have := failed_build_yields_no_model [] [] ⟨none, .union [.named "x"]⟩ "x"
    (by decide) (by decide)
  simpa using this

/-- `WebidlType` from `src/ast.rs`: a compound type together with its
optional declared name — the codec's per-entry view of the type table. -/
structure WebidlType where
  name : Option String
  ty : WebidlCompoundType
deriving Repr

/-- Modelled from the spec: the wire format carries one optional name per
binding-table entry (§4.5), so the codec's view of a binding-table entry
pairs the payload with its optional name. -/
structure NamedFunctionBinding where
  name : Option String
  binding : FunctionBinding
deriving Repr

/-- Modelled from the spec: the codec's in-memory model — the three tables
in declaration order, every cross-reference being a declaration index. -/
structure CodecSection where
  types : List WebidlType
  bindings : List NamedFunctionBinding
  binds : List Bind
deriving Repr

/-- Modelled from the spec: the scalar-type tag of the wire format (the
concrete tag values are a frozen external contract; here they are the
constructor positions). -/
def scalarCode : WebidlScalarType → Nat
  | .Any => 0
  | .Boolean => 1
  | .Byte => 2
  | .Octet => 3
  | .Long => 4
  | .UnsignedLong => 5
  | .Short => 6
  | .UnsignedShort => 7
  | .LongLong => 8
  | .UnsignedLongLong => 9
  | .Float => 10
  | .UnrestrictedFloat => 11
  | .Double => 12
  | .UnrestrictedDouble => 13
  | .DomString => 14
  | .ByteString => 15
  | .UsvString => 16
  | .Object => 17
  | .Symbol => 18
  | .ArrayBuffer => 19
  | .DataView => 20
  | .Int8Array => 21
  | .Int16Array => 22
  | .Int32Array => 23
  | .Uint8Array => 24
  | .Uint16Array => 25
  | .Uint32Array => 26
  | .Uint8ClampedArray => 27
  | .Float32Array => 28
  | .Float64Array => 29

/-- Inverse of `scalarCode`; an unknown tag is rejected. -/
def scalarOfCode : Nat → Option WebidlScalarType
  | 0 => some .Any
  | 1 => some .Boolean
  | 2 => some .Byte
  | 3 => some .Octet
  | 4 => some .Long
  | 5 => some .UnsignedLong
  | 6 => some .Short
  | 7 => some .UnsignedShort
  | 8 => some .LongLong
  | 9 => some .UnsignedLongLong
  | 10 => some .Float
  | 11 => some .UnrestrictedFloat
  | 12 => some .Double
  | 13 => some .UnrestrictedDouble
  | 14 => some .DomString
  | 15 => some .ByteString
  | 16 => some .UsvString
  | 17 => some .Object
  | 18 => some .Symbol
  | 19 => some .ArrayBuffer
  | 20 => some .DataView
  | 21 => some .Int8Array
  | 22 => some .Int16Array
  | 23 => some .Int32Array
  | 24 => some .Uint8Array
  | 25 => some .Uint16Array
  | 26 => some .Uint32Array
  | 27 => some .Uint8ClampedArray
  | 28 => some .Float32Array
  | 29 => some .Float64Array
  | _ => none

/-- The wasm value-type tag. -/
def valTypeCode : ValType → Nat
  | .I32 => 0
  | .I64 => 1
  | .F32 => 2
  | .F64 => 3
  | .V128 => 4
  | .Anyref => 5

/-- Inverse of `valTypeCode`. -/
def valTypeOfCode : Nat → Option ValType
  | 0 => some .I32
  | 1 => some .I64
  | 2 => some .F32
  | 3 => some .F64
  | 4 => some .V128
  | 5 => some .Anyref
  | _ => none

theorem scalarOfCode_scalarCode (sc : WebidlScalarType) :
    scalarOfCode (scalarCode sc) = some sc := by cases sc <;> rfl

theorem valTypeOfCode_valTypeCode (v : ValType) :
    valTypeOfCode (valTypeCode v) = some v := by cases v <;> rfl

/-- Modelled from the spec: a string encodes as its length followed by its
character codes (the token stream abstracts the frozen byte-level format). -/
def encodeStr (s : String) : List Nat :=
  s.data.length :: s.data.map Char.toNat

/-- Decode a length-prefixed string, rejecting truncation. -/
def decodeStr : List Nat → Except String (String × List Nat)
  | [] => .error "truncated"
  | n :: ts =>
    if n ≤ ts.length then
      .ok (String.mk ((ts.take n).map Char.ofNat), ts.drop n)
    else .error "truncated"

theorem decodeStr_enc (s : String) (rest : List Nat) :
    decodeStr (encodeStr s ++ rest) = .ok (s, rest) := by
  have hlen : (s.data.map Char.toNat).length = s.data.length := by simp
  have htake : ((s.data.map Char.toNat) ++ rest).take s.data.length = s.data.map Char.toNat := by
    rw [← hlen, List.take_left]
  have hdrop : ((s.data.map Char.toNat) ++ rest).drop s.data.length = rest := by
    rw [← hlen, List.drop_left]
  simp only [encodeStr, decodeStr, List.cons_append]
  rw [if_pos (by simp)]
  rw [htake, hdrop]
  simp [Function.comp_def, Char.ofNat_toNat]

/-- A type reference encodes as a discriminant then a scalar tag or a
type-table index. -/
def encodeRef : WebidlTypeRef → List Nat
  | .Scalar sc => [0, scalarCode sc]
  | .Id i => [1, i]

/-- Decode a type reference; a table index must be below `bound`, the number
of type-table entries decoded so far. -/
def decodeRef (bound : Nat) : List Nat → Except String (WebidlTypeRef × List Nat)
  | 0 :: c :: ts =>
    match scalarOfCode c with
    | some sc => .ok (.Scalar sc, ts)
    | none => .error "unknown scalar tag"
  | 1 :: i :: ts =>
    if i < bound then .ok (.Id i, ts) else .error "type index out of range"
  | _ => .error "malformed type ref"

/-- In-range check matching `decodeRef`. -/
def wfRef (bound : Nat) : WebidlTypeRef → Bool
  | .Scalar _ => true
  | .Id i => decide (i < bound)

theorem decodeRef_enc {bound : Nat} {r : WebidlTypeRef} (h : wfRef bound r = true)
    (rest : List Nat) : decodeRef bound (encodeRef r ++ rest) = .ok (r, rest) := by
  cases r with
  | Scalar sc => simp [encodeRef, decodeRef, scalarOfCode_scalarCode]
  | Id i =>
    have : i < bound := by simpa [wfRef] using h
    simp [encodeRef, decodeRef, this]

theorem encodeRef_length (r : WebidlTypeRef) : (encodeRef r).length = 2 := by
  cases r <;> rfl

/-- An optional name: a presence flag then the name. -/
def encodeOptName : Option String → List Nat
  | none => [0]
  | some s => 1 :: encodeStr s

/-- Decode an optional name. -/
def decodeOptName : List Nat → Except String (Option String × List Nat)
  | 0 :: ts => .ok (none, ts)
  | 1 :: ts =>
    match decodeStr ts with
    | .ok (s, ts) => .ok (some s, ts)
    | .error e => .error e
  | _ => .error "malformed name flag"

theorem decodeOptName_enc (name : Option String) (rest : List Nat) :
    decodeOptName (encodeOptName name ++ rest) = .ok (name, rest) := by
  cases name with
  | none => rfl
  | some s => simp [encodeOptName, decodeOptName, decodeStr_enc]

/-- A function-kind production: tag, then the method's type reference when
applicable. -/
def encodeKind : WebidlFunctionKind → List Nat
  | .Static => [0]
  | .Method m => 1 :: encodeRef m.ty
  | .Constructor => [2]

/-- Decode a function kind. -/
def decodeKind (bound : Nat) : List Nat → Except String (WebidlFunctionKind × List Nat)
  | 0 :: ts => .ok (.Static, ts)
  | 1 :: ts =>
    match decodeRef bound ts with
    | .ok (r, ts) => .ok (.Method ⟨r⟩, ts)
    | .error e => .error e
  | 2 :: ts => .ok (.Constructor, ts)
  | _ => .error "unknown kind tag"

/-- In-range check matching `decodeKind`. -/
def wfKind (bound : Nat) : WebidlFunctionKind → Bool
  | .Method m => wfRef bound m.ty
  | _ => true

theorem decodeKind_enc {bound : Nat} {k : WebidlFunctionKind} (h : wfKind bound k = true)
    (rest : List Nat) : decodeKind bound (encodeKind k ++ rest) = .ok (k, rest) := by
  cases k with
  | Static => rfl
  | Constructor => rfl
  | Method m =>
    have := decodeRef_enc (show wfRef bound m.ty = true by simpa [wfKind] using h) rest
    simp [encodeKind, decodeKind, this]

/-- An optional result reference: presence flag then the reference. -/
def encodeOptRef : Option WebidlTypeRef → List Nat
  | none => [0]
  | some r => 1 :: encodeRef r

/-- Decode an optional reference. -/
def decodeOptRef (bound : Nat) : List Nat → Except String (Option WebidlTypeRef × List Nat)
  | 0 :: ts => .ok (none, ts)
  | 1 :: ts =>
    match decodeRef bound ts with
    | .ok (r, ts) => .ok (some r, ts)
    | .error e => .error e
  | _ => .error "malformed result flag"

/-- In-range check matching `decodeOptRef`. -/
def wfOptRef (bound : Nat) : Option WebidlTypeRef → Bool
  | none => true
  | some r => wfRef bound r

theorem decodeOptRef_enc {bound : Nat} {r : Option WebidlTypeRef}
    (h : wfOptRef bound r = true) (rest : List Nat) :
    decodeOptRef bound (encodeOptRef r ++ rest) = .ok (r, rest) := by
  cases r with
  | none => rfl
  | some r =>
    have := decodeRef_enc (show wfRef bound r = true by simpa [wfOptRef] using h) rest
    simp [encodeOptRef, decodeOptRef, this]

/-- A list of type references, concatenated (the count is emitted by the
enclosing production). -/
def encodeRefs : List WebidlTypeRef → List Nat
  | [] => []
  | r :: rs => encodeRef r ++ encodeRefs rs

/-- Decode `n` type references. -/
def decodeRefs (bound : Nat) : Nat → List Nat → Except String (List WebidlTypeRef × List Nat)
  | 0, ts => .ok ([], ts)
  | n + 1, ts =>
    match decodeRef bound ts with
    | .ok (r, ts) =>
      match decodeRefs bound n ts with
      | .ok (rs, ts) => .ok (r :: rs, ts)
      | .error e => .error e
    | .error e => .error e

/-- In-range check matching `decodeRefs`. -/
def wfRefs (bound : Nat) : List WebidlTypeRef → Bool
  | [] => true
  | r :: rs => wfRef bound r && wfRefs bound rs

theorem decodeRefs_enc {bound : Nat} {rs : List WebidlTypeRef}
    (h : wfRefs bound rs = true) (rest : List Nat) :
    decodeRefs bound rs.length (encodeRefs rs ++ rest) = .ok (rs, rest) := by
  induction rs generalizing rest with
  | nil => rfl
  | cons r rs ih =>
    simp only [wfRefs, Bool.and_eq_true] at h
    have h1 := decodeRef_enc h.1 (encodeRefs rs ++ rest)
    simp only [encodeRefs, wfRefs, List.length_cons, List.append_assoc, decodeRefs, h1,
      ih h.2 rest]

/-- A list of strings, concatenated. -/
def encodeStrs : List String → List Nat
  | [] => []
  | s :: ss => encodeStr s ++ encodeStrs ss

/-- Decode `n` strings. -/
def decodeStrs : Nat → List Nat → Except String (List String × List Nat)
  | 0, ts => .ok ([], ts)
  | n + 1, ts =>
    match decodeStr ts with
    | .ok (s, ts) =>
      match decodeStrs n ts with
      | .ok (ss, ts) => .ok (s :: ss, ts)
      | .error e => .error e
    | .error e => .error e

theorem decodeStrs_enc (ss : List String) (rest : List Nat) :
    decodeStrs ss.length (encodeStrs ss ++ rest) = .ok (ss, rest) := by
  induction ss generalizing rest with
  | nil => rfl
  | cons s ss ih =>
    simp only [encodeStrs, List.length_cons, List.append_assoc, decodeStrs,
      decodeStr_enc, ih rest]

/-- A dictionary field: name then type reference. -/
def encodeField (f : WebidlDictionaryField) : List Nat :=
  encodeStr f.name ++ encodeRef f.ty

/-- A list of dictionary fields, concatenated. -/
def encodeFields : List WebidlDictionaryField → List Nat
  | [] => []
  | f :: fs => encodeField f ++ encodeFields fs

/-- Decode `n` dictionary fields. -/
def decodeFields (bound : Nat) : Nat → List Nat → Except String (List WebidlDictionaryField × List Nat)
  | 0, ts => .ok ([], ts)
  | n + 1, ts =>
    match decodeStr ts with
    | .ok (nm, ts) =>
      match decodeRef bound ts with
      | .ok (r, ts) =>
        match decodeFields bound n ts with
        | .ok (fs, ts) => .ok (⟨nm, r⟩ :: fs, ts)
        | .error e => .error e
      | .error e => .error e
    | .error e => .error e

/-- In-range check matching `decodeFields`. -/
def wfFields (bound : Nat) : List WebidlDictionaryField → Bool
  | [] => true
  | f :: fs => wfRef bound f.ty && wfFields bound fs

theorem decodeFields_enc {bound : Nat} {fs : List WebidlDictionaryField}
    (h : wfFields bound fs = true) (rest : List Nat) :
    decodeFields bound fs.length (encodeFields fs ++ rest) = .ok (fs, rest) := by
  induction fs generalizing rest with
  | nil => rfl
  | cons f fs ih =>
    simp only [wfFields, Bool.and_eq_true] at h
    have h1 := decodeRef_enc h.1 (encodeFields fs ++ rest)
    simp only [encodeFields, encodeField, List.length_cons, List.append_assoc, decodeFields,
      decodeStr_enc, h1, ih h.2 rest]

mutual

/-- An outgoing expression: variant tag, then the variant's fields, then
recursively encoded sub-expressions (`Dict` carries a count and a list). -/
def encodeOut : OutgoingBindingExpression → List Nat
  | .As ty idx => 0 :: (encodeRef ty ++ [idx])
  | .Utf8Str ty off len => 1 :: (encodeRef ty ++ [off, len])
  | .Utf8CStr ty off => 2 :: (encodeRef ty ++ [off])
  | .I32ToEnum ty idx => 3 :: (encodeRef ty ++ [idx])
  | .View ty off len => 4 :: (encodeRef ty ++ [off, len])
  | .Copy ty off len => 5 :: (encodeRef ty ++ [off, len])
  | .Dict ty fields => 6 :: (encodeRef ty ++ fields.length :: encodeOuts fields)
  | .BindExport ty binding idx => 7 :: (encodeRef ty ++ [binding, idx])

/-- A list of outgoing expressions, concatenated. -/
def encodeOuts : List OutgoingBindingExpression → List Nat
  | [] => []
  | e :: es => encodeOut e ++ encodeOuts es

end

mutual

/-- In-range check for an outgoing expression: `tb` bounds type-table
references, `bb` binding-table references. -/
def wfOut (tb bb : Nat) : OutgoingBindingExpression → Bool
  | .As ty _ => wfRef tb ty
  | .Utf8Str ty _ _ => wfRef tb ty
  | .Utf8CStr ty _ => wfRef tb ty
  | .I32ToEnum ty _ => wfRef tb ty
  | .View ty _ _ => wfRef tb ty
  | .Copy ty _ _ => wfRef tb ty
  | .Dict ty fields => wfRef tb ty && wfOuts tb bb fields
  | .BindExport ty binding _ => wfRef tb ty && decide (binding < bb)

/-- In-range check for a list of outgoing expressions. -/
def wfOuts (tb bb : Nat) : List OutgoingBindingExpression → Bool
  | [] => true
  | e :: es => wfOut tb bb e && wfOuts tb bb es

end

/-- Decode `n` outgoing expressions.  `fuel` bounds the recursion depth;
callers pass the remaining token count, which always suffices because every
expression consumes at least its tag token. -/
def decodeOuts (tb bb : Nat) :
    Nat → Nat → List Nat → Except String (List OutgoingBindingExpression × List Nat)
  | _, 0, ts => .ok ([], ts)
  | 0, _ + 1, _ => .error "out of fuel"
  | _ + 1, _ + 1, [] => .error "truncated"
  | fuel + 1, n + 1, tag :: ts =>
    match
      ((match tag, ts with
        | 0, ts =>
          match decodeRef tb ts with
          | .ok (ty, idx :: ts) => .ok (OutgoingBindingExpression.As ty idx, ts)
          | .ok (_, []) => .error "truncated"
          | .error e => .error e
        | 1, ts =>
          match decodeRef tb ts with
          | .ok (ty, off :: len :: ts) =>
            .ok (OutgoingBindingExpression.Utf8Str ty off len, ts)
          | .ok (_, _) => .error "truncated"
          | .error e => .error e
        | 2, ts =>
          match decodeRef tb ts with
          | .ok (ty, off :: ts) => .ok (OutgoingBindingExpression.Utf8CStr ty off, ts)
          | .ok (_, []) => .error "truncated"
          | .error e => .error e
        | 3, ts =>
          match decodeRef tb ts with
          | .ok (ty, idx :: ts) => .ok (OutgoingBindingExpression.I32ToEnum ty idx, ts)
          | .ok (_, []) => .error "truncated"
          | .error e => .error e
        | 4, ts =>
          match decodeRef tb ts with
          | .ok (ty, off :: len :: ts) => .ok (OutgoingBindingExpression.View ty off len, ts)
          | .ok (_, _) => .error "truncated"
          | .error e => .error e
        | 5, ts =>
          match decodeRef tb ts with
          | .ok (ty, off :: len :: ts) => .ok (OutgoingBindingExpression.Copy ty off len, ts)
          | .ok (_, _) => .error "truncated"
          | .error e => .error e
        | 6, ts =>
          match decodeRef tb ts with
          | .ok (ty, cnt :: ts) =>
            match decodeOuts tb bb fuel cnt ts with
            | .ok (fields, ts) => .ok (OutgoingBindingExpression.Dict ty fields, ts)
            | .error e => .error e
          | .ok (_, []) => .error "truncated"
          | .error e => .error e
        | 7, ts =>
          match decodeRef tb ts with
          | .ok (ty, binding :: idx :: ts) =>
            if binding < bb then .ok (OutgoingBindingExpression.BindExport ty binding idx, ts)
            else .error "binding index out of range"
          | .ok (_, _) => .error "truncated"
          | .error e => .error e
        | _, _ => .error "unknown outgoing tag") :
        Except String (OutgoingBindingExpression × List Nat)) with
    | .ok (e, ts) =>
      match decodeOuts tb bb fuel n ts with
      | .ok (es, ts) => .ok (e :: es, ts)
      | .error e2 => .error e2
    | .error e => .error e

/-- An incoming expression: variant tag, variant fields, then the single
sub-expression where the variant has one. -/
def encodeIn : IncomingBindingExpression → List Nat
  | .Get idx => [0, idx]
  | .As vt e => 1 :: valTypeCode vt :: encodeIn e
  | .AllocUtf8Str nm e => 2 :: (encodeStr nm ++ encodeIn e)
  | .AllocCopy nm e => 3 :: (encodeStr nm ++ encodeIn e)
  | .EnumToI32 ty e => 4 :: (encodeRef ty ++ encodeIn e)
  | .Field idx e => 5 :: idx :: encodeIn e
  | .BindImport ty binding e => 6 :: ty :: binding :: encodeIn e

/-- A list of incoming expressions, concatenated. -/
def encodeIns : List IncomingBindingExpression → List Nat
  | [] => []
  | e :: es => encodeIn e ++ encodeIns es

/-- In-range check for an incoming expression. -/
def wfIn (tb bb : Nat) : IncomingBindingExpression → Bool
  | .Get _ => true
  | .As _ e => wfIn tb bb e
  | .AllocUtf8Str _ e => wfIn tb bb e
  | .AllocCopy _ e => wfIn tb bb e
  | .EnumToI32 ty e => wfRef tb ty && wfIn tb bb e
  | .Field _ e => wfIn tb bb e
  | .BindImport _ binding e => decide (binding < bb) && wfIn tb bb e

/-- In-range check for a list of incoming expressions. -/
def wfIns (tb bb : Nat) : List IncomingBindingExpression → Bool
  | [] => true
  | e :: es => wfIn tb bb e && wfIns tb bb es

/-- Decode one incoming expression, with fuel bounding the nesting depth. -/
def decodeIn (tb bb : Nat) : Nat → List Nat → Except String (IncomingBindingExpression × List Nat)
  | 0, _ => .error "out of fuel"
  | _ + 1, [] => .error "truncated"
  | fuel + 1, tag :: ts =>
    match tag, ts with
    | 0, idx :: ts => .ok (.Get idx, ts)
    | 1, c :: ts =>
      match valTypeOfCode c with
      | some vt =>
        match decodeIn tb bb fuel ts with
        | .ok (e, ts) => .ok (.As vt e, ts)
        | .error e => .error e
      | none => .error "unknown valtype tag"
    | 2, ts =>
      match decodeStr ts with
      | .ok (nm, ts) =>
        match decodeIn tb bb fuel ts with
        | .ok (e, ts) => .ok (.AllocUtf8Str nm e, ts)
        | .error e => .error e
      | .error e => .error e
    | 3, ts =>
      match decodeStr ts with
      | .ok (nm, ts) =>
        match decodeIn tb bb fuel ts with
        | .ok (e, ts) => .ok (.AllocCopy nm e, ts)
        | .error e => .error e
      | .error e => .error e
    | 4, ts =>
      match decodeRef tb ts with
      | .ok (r, ts) =>
        match decodeIn tb bb fuel ts with
        | .ok (e, ts) => .ok (.EnumToI32 r e, ts)
        | .error e => .error e
      | .error e => .error e
    | 5, idx :: ts =>
      match decodeIn tb bb fuel ts with
      | .ok (e, ts) => .ok (.Field idx e, ts)
      | .error e => .error e
    | 6, ty :: binding :: ts =>
      if binding < bb then
        match decodeIn tb bb fuel ts with
        | .ok (e, ts) => .ok (.BindImport ty binding e, ts)
        | .error e => .error e
      else .error "binding index out of range"
    | _, _ => .error "unknown incoming tag"

/-- Decode `n` incoming expressions with a fixed fuel. -/
def decodeIns (tb bb fuel : Nat) :
    Nat → List Nat → Except String (List IncomingBindingExpression × List Nat)
  | 0, ts => .ok ([], ts)
  | n + 1, ts =>
    match decodeIn tb bb fuel ts with
    | .ok (e, ts) =>
      match decodeIns tb bb fuel n ts with
      | .ok (es, ts) => .ok (e :: es, ts)
      | .error e2 => .error e2
    | .error e => .error e

theorem encodeOut_length_pos (e : OutgoingBindingExpression) :
    1 ≤ (encodeOut e).length := by
  cases e <;> simp [encodeOut]

theorem encodeIn_length_pos (e : IncomingBindingExpression) :
    1 ≤ (encodeIn e).length := by
  cases e <;> simp [encodeIn]

theorem encodeStr_length_pos (s : String) : 1 ≤ (encodeStr s).length := by
  simp [encodeStr]

theorem decodeIn_enc (tb bb : Nat) (e : IncomingBindingExpression) :
    ∀ (fuel : Nat) (rest : List Nat),
      (encodeIn e).length ≤ fuel → wfIn tb bb e = true →
      decodeIn tb bb fuel (encodeIn e ++ rest) = .ok (e, rest) := by
  induction e with
  | Get idx =>
    intro fuel rest hf hw
    cases fuel with
    | zero => simp [encodeIn] at hf
    | succ f => rfl
  | As vt e ih =>
    intro fuel rest hf hw
    cases fuel with
    | zero => simp [encodeIn] at hf
    | succ f =>
      have hrec := ih f rest (by simp [encodeIn] at hf; omega) (by simpa [wfIn] using hw)
      simp [encodeIn, decodeIn, valTypeOfCode_valTypeCode, hrec]
  | AllocUtf8Str nm e ih =>
    intro fuel rest hf hw
    cases fuel with
    | zero => simp [encodeIn] at hf
    | succ f =>
      have hrec := ih f rest
        (by have := encodeStr_length_pos nm; simp [encodeIn] at hf; omega)
        (by simpa [wfIn] using hw)
      simp [encodeIn, decodeIn, decodeStr_enc, hrec]
  | AllocCopy nm e ih =>
    intro fuel rest hf hw
    cases fuel with
    | zero => simp [encodeIn] at hf
    | succ f =>
      have hrec := ih f rest
        (by have := encodeStr_length_pos nm; simp [encodeIn] at hf; omega)
        (by simpa [wfIn] using hw)
      simp [encodeIn, decodeIn, decodeStr_enc, hrec]
  | EnumToI32 ty e ih =>
    intro fuel rest hf hw
    simp only [wfIn, Bool.and_eq_true] at hw
    cases fuel with
    | zero => simp [encodeIn] at hf
    | succ f =>
      have hrec := ih f rest
        (by have := encodeRef_length ty; simp [encodeIn] at hf; omega) hw.2
      have href := decodeRef_enc hw.1 (encodeIn e ++ rest)
      simp [encodeIn, decodeIn, href, hrec]
  | Field idx e ih =>
    intro fuel rest hf hw
    cases fuel with
    | zero => simp [encodeIn] at hf
    | succ f =>
      have hrec := ih f rest (by simp [encodeIn] at hf; omega) (by simpa [wfIn] using hw)
      simp [encodeIn, decodeIn, hrec]
  | BindImport ty binding e ih =>
    intro fuel rest hf hw
    simp only [wfIn, Bool.and_eq_true, decide_eq_true_eq] at hw
    cases fuel with
    | zero => simp [encodeIn] at hf
    | succ f =>
      have hrec := ih f rest (by simp [encodeIn] at hf; omega) hw.2
      simp [encodeIn, decodeIn, hw.1, hrec]

theorem decodeIns_enc (tb bb : Nat) (es : List IncomingBindingExpression) :
    ∀ (fuel : Nat) (rest : List Nat),
      (encodeIns es).length ≤ fuel → wfIns tb bb es = true →
      decodeIns tb bb fuel es.length (encodeIns es ++ rest) = .ok (es, rest) := by
  induction es with
  | nil => intro fuel rest _ _; rfl
  | cons e es ih =>
    intro fuel rest hf hw
    simp only [wfIns, Bool.and_eq_true] at hw
    have h1 : (encodeIn e).length ≤ fuel := by simp [encodeIns] at hf; omega
    have h2 : (encodeIns es).length ≤ fuel := by simp [encodeIns] at hf; omega
    have hone := decodeIn_enc tb bb e fuel (encodeIns es ++ rest) h1 hw.1
    simp only [encodeIns, List.length_cons, List.append_assoc, decodeIns, hone,
      ih fuel rest h2 hw.2]

theorem decodeOuts_enc (tb bb : Nat) :
    ∀ (fuel : Nat) (es : List OutgoingBindingExpression) (rest : List Nat),
      (encodeOuts es).length ≤ fuel → wfOuts tb bb es = true →
      decodeOuts tb bb fuel es.length (encodeOuts es ++ rest) = .ok (es, rest) := by
  intro fuel
  induction fuel with
  | zero =>
    intro es rest hf hw
    cases es with
    | nil => rfl
    | cons e es =>
      exfalso
      have := encodeOut_length_pos e
      simp only [encodeOuts, List.length_append] at hf
      omega
  | succ fuel ih =>
    intro es rest hf hw
    cases es with
    | nil => rfl
    | cons e es =>
      simp only [wfOuts, Bool.and_eq_true] at hw
      have htail : (encodeOuts es).length ≤ fuel := by
        have := encodeOut_length_pos e
        simp only [encodeOuts, List.length_append] at hf
        omega
      have htl := ih es rest htail hw.2
      cases e with
      | As ty idx =>
        have h1 := decodeRef_enc (show wfRef tb ty = true by simpa [wfOut] using hw.1)
          (idx :: (encodeOuts es ++ rest))
        simp only [encodeOuts, encodeOut, List.append_eq, List.nil_append, List.cons_append,
          List.append_assoc, List.length_cons, List.singleton_append, decodeOuts, h1, htl]
      | Utf8Str ty off len =>
        have h1 := decodeRef_enc (show wfRef tb ty = true by simpa [wfOut] using hw.1)
          (off :: len :: (encodeOuts es ++ rest))
        simp only [encodeOuts, encodeOut, List.append_eq, List.nil_append, List.cons_append,
          List.append_assoc, List.length_cons, List.singleton_append, decodeOuts, h1, htl]
      | Utf8CStr ty off =>
        have h1 := decodeRef_enc (show wfRef tb ty = true by simpa [wfOut] using hw.1)
          (off :: (encodeOuts es ++ rest))
        simp only [encodeOuts, encodeOut, List.append_eq, List.nil_append, List.cons_append,
          List.append_assoc, List.length_cons, List.singleton_append, decodeOuts, h1, htl]
      | I32ToEnum ty idx =>
        have h1 := decodeRef_enc (show wfRef tb ty = true by simpa [wfOut] using hw.1)
          (idx :: (encodeOuts es ++ rest))
        simp only [encodeOuts, encodeOut, List.append_eq, List.nil_append, List.cons_append,
          List.append_assoc, List.length_cons, List.singleton_append, decodeOuts, h1, htl]
      | View ty off len =>
        have h1 := decodeRef_enc (show wfRef tb ty = true by simpa [wfOut] using hw.1)
          (off :: len :: (encodeOuts es ++ rest))
        simp only [encodeOuts, encodeOut, List.append_eq, List.nil_append, List.cons_append,
          List.append_assoc, List.length_cons, List.singleton_append, decodeOuts, h1, htl]
      | Copy ty off len =>
        have h1 := decodeRef_enc (show wfRef tb ty = true by simpa [wfOut] using hw.1)
          (off :: len :: (encodeOuts es ++ rest))
        simp only [encodeOuts, encodeOut, List.append_eq, List.nil_append, List.cons_append,
          List.append_assoc, List.length_cons, List.singleton_append, decodeOuts, h1, htl]
      | Dict ty fields =>
        simp only [wfOut, Bool.and_eq_true] at hw
        have hfields : (encodeOuts fields).length ≤ fuel := by
          have := encodeRef_length ty
          simp only [encodeOuts, encodeOut, List.length_append, List.length_cons] at hf
          omega
        have hfl := ih fields (encodeOuts es ++ rest) hfields hw.1.2
        have h1 := decodeRef_enc hw.1.1
          (fields.length :: (encodeOuts fields ++ (encodeOuts es ++ rest)))
        simp only [encodeOuts, encodeOut, List.append_eq, List.nil_append, List.cons_append,
          List.append_assoc, List.length_cons, decodeOuts, h1, hfl, htl]
      | BindExport ty binding idx =>
        simp only [wfOut, Bool.and_eq_true, decide_eq_true_eq] at hw
        have h1 := decodeRef_enc hw.1.1 (binding :: idx :: (encodeOuts es ++ rest))
        simp only [encodeOuts, encodeOut, List.append_eq, List.nil_append, List.cons_append,
          List.append_assoc, List.length_cons, List.singleton_append, decodeOuts, h1, htl,
          if_pos hw.1.2]

/-- A type-table entry: kind tag, optional name, kind-specific payload
(§4.5 item 1). -/
def encodeTypeEntry (t : WebidlType) : List Nat :=
  match t.ty with
  | .Function f =>
    0 :: (encodeOptName t.name ++ encodeKind f.kind ++
      (f.params.length :: encodeRefs f.params) ++ encodeOptRef f.result)
  | .Dictionary d =>
    1 :: (encodeOptName t.name ++ d.fields.length :: encodeFields d.fields)
  | .Enumeration e =>
    2 :: (encodeOptName t.name ++ e.values.length :: encodeStrs e.values)
  | .Union u =>
    3 :: (encodeOptName t.name ++ u.members.length :: encodeRefs u.members)

/-- Decode one type-table entry; `bound` is the number of entries decoded
so far, the only indices a reference may use. -/
def decodeTypeEntry (bound : Nat) : List Nat → Except String (WebidlType × List Nat)
  | 0 :: ts =>
    match decodeOptName ts with
    | .ok (nm, ts) =>
      match decodeKind bound ts with
      | .ok (k, np :: ts) =>
        match decodeRefs bound np ts with
        | .ok (ps, ts) =>
          match decodeOptRef bound ts with
          | .ok (res, ts) => .ok (⟨nm, .Function ⟨k, ps, res⟩⟩, ts)
          | .error e => .error e
        | .error e => .error e
      | .ok (_, []) => .error "truncated"
      | .error e => .error e
    | .error e => .error e
  | 1 :: ts =>
    match decodeOptName ts with
    | .ok (nm, nf :: ts) =>
      match decodeFields bound nf ts with
      | .ok (fs, ts) => .ok (⟨nm, .Dictionary ⟨fs⟩⟩, ts)
      | .error e => .error e
    | .ok (_, []) => .error "truncated"
    | .error e => .error e
  | 2 :: ts =>
    match decodeOptName ts with
    | .ok (nm, nv :: ts) =>
      match decodeStrs nv ts with
      | .ok (vs, ts) => .ok (⟨nm, .Enumeration ⟨vs⟩⟩, ts)
      | .error e => .error e
    | .ok (_, []) => .error "truncated"
    | .error e => .error e
  | 3 :: ts =>
    match decodeOptName ts with
    | .ok (nm, nu :: ts) =>
      match decodeRefs bound nu ts with
      | .ok (ms, ts) => .ok (⟨nm, .Union ⟨ms⟩⟩, ts)
      | .error e => .error e
    | .ok (_, []) => .error "truncated"
    | .error e => .error e
  | _ => .error "unknown type tag"

/-- In-range check matching `decodeTypeEntry`. -/
def wfCompound (bound : Nat) : WebidlCompoundType → Bool
  | .Function f => wfKind bound f.kind && wfRefs bound f.params && wfOptRef bound f.result
  | .Dictionary d => wfFields bound d.fields
  | .Enumeration _ => true
  | .Union u => wfRefs bound u.members

theorem decodeTypeEntry_enc {bound : Nat} {t : WebidlType}
    (h : wfCompound bound t.ty = true) (rest : List Nat) :
    decodeTypeEntry bound (encodeTypeEntry t ++ rest) = .ok (t, rest) := by
  obtain ⟨nm, ty⟩ := t
  cases ty with
  | Function f =>
    obtain ⟨k, ps, res⟩ := f
    simp only [wfCompound, Bool.and_eq_true] at h
    simp [encodeTypeEntry, decodeTypeEntry, decodeOptName_enc,
      decodeKind_enc h.1.1, decodeRefs_enc h.1.2, decodeOptRef_enc h.2]
  | Dictionary d =>
    obtain ⟨fs⟩ := d
    simp only [wfCompound] at h
    simp [encodeTypeEntry, decodeTypeEntry, decodeOptName_enc, decodeFields_enc h]
  | Enumeration e =>
    obtain ⟨vs⟩ := e
    simp [encodeTypeEntry, decodeTypeEntry, decodeOptName_enc, decodeStrs_enc]
  | Union u =>
    obtain ⟨ms⟩ := u
    simp only [wfCompound] at h
    simp [encodeTypeEntry, decodeTypeEntry, decodeOptName_enc, decodeRefs_enc h]

/-- The type table's entries, concatenated. -/
def encodeTypes : List WebidlType → List Nat
  | [] => []
  | t :: ts => encodeTypeEntry t ++ encodeTypes ts

/-- Decode `n` type-table entries; `k` counts entries already decoded. -/
def decodeTypes : Nat → Nat → List Nat → Except String (List WebidlType × List Nat)
  | _, 0, ts => .ok ([], ts)
  | k, n + 1, ts =>
    match decodeTypeEntry k ts with
    | .ok (t, ts) =>
      match decodeTypes (k + 1) n ts with
      | .ok (out, ts) => .ok (t :: out, ts)
      | .error e => .error e
    | .error e => .error e

/-- Each type entry may reference only strictly earlier entries. -/
def wfTypesFrom : Nat → List WebidlType → Bool
  | _, [] => true
  | k, t :: ts => wfCompound k t.ty && wfTypesFrom (k + 1) ts

theorem decodeTypes_enc (types : List WebidlType) :
    ∀ (k : Nat) (rest : List Nat), wfTypesFrom k types = true →
      decodeTypes k types.length (encodeTypes types ++ rest) = .ok (types, rest) := by
  induction types with
  | nil => intro k rest _; rfl
  | cons t ts ih =>
    intro k rest h
    simp only [wfTypesFrom, Bool.and_eq_true] at h
    have h1 := decodeTypeEntry_enc h.1 (encodeTypes ts ++ rest)
    simp only [encodeTypes, List.length_cons, List.append_assoc, decodeTypes, h1,
      ih (k + 1) rest h.2]

/-- An expression map: count, then the expressions. -/
def encodeOutMap (m : OutgoingBindingMap) : List Nat :=
  m.bindings.length :: encodeOuts m.bindings

/-- Decode an outgoing-expression map. -/
def decodeOutMap (tb bb : Nat) : List Nat → Except String (OutgoingBindingMap × List Nat)
  | [] => .error "truncated"
  | n :: ts =>
    match decodeOuts tb bb ts.length n ts with
    | .ok (es, ts) => .ok (⟨es⟩, ts)
    | .error e => .error e

/-- An incoming-expression map: count, then the expressions. -/
def encodeInMap (m : IncomingBindingMap) : List Nat :=
  m.bindings.length :: encodeIns m.bindings

/-- Decode an incoming-expression map. -/
def decodeInMap (tb bb : Nat) : List Nat → Except String (IncomingBindingMap × List Nat)
  | [] => .error "truncated"
  | n :: ts =>
    match decodeIns tb bb ts.length n ts with
    | .ok (es, ts) => .ok (⟨es⟩, ts)
    | .error e => .error e

theorem decodeOutMap_enc {tb bb : Nat} {m : OutgoingBindingMap}
    (h : wfOuts tb bb m.bindings = true) (rest : List Nat) :
    decodeOutMap tb bb (encodeOutMap m ++ rest) = .ok (m, rest) := by
  obtain ⟨es⟩ := m
  have hfuel : (encodeOuts es).length ≤ (encodeOuts es ++ rest).length := by simp
  have h1 := decodeOuts_enc tb bb (encodeOuts es ++ rest).length es rest hfuel h
  simp only [List.length_append] at h1
  simp [encodeOutMap, decodeOutMap, h1]

theorem decodeInMap_enc {tb bb : Nat} {m : IncomingBindingMap}
    (h : wfIns tb bb m.bindings = true) (rest : List Nat) :
    decodeInMap tb bb (encodeInMap m ++ rest) = .ok (m, rest) := by
  obtain ⟨es⟩ := m
  have hfuel : (encodeIns es).length ≤ (encodeIns es ++ rest).length := by simp
  have h1 := decodeIns_enc tb bb es (encodeIns es ++ rest).length rest hfuel h
  simp only [List.length_append] at h1
  simp [encodeInMap, decodeInMap, h1]

/-- A binding-table entry: direction tag, optional name, host function-type
index, interface type reference, params map, result map (§4.5 item 2). -/
def encodeBindingEntry (b : NamedFunctionBinding) : List Nat :=
  match b.binding with
  | .Import i =>
    0 :: (encodeOptName b.name ++ i.wasm_ty ::
      (encodeRef i.webidl_ty ++ encodeOutMap i.params ++ encodeInMap i.result))
  | .Export e =>
    1 :: (encodeOptName b.name ++ e.wasm_ty ::
      (encodeRef e.webidl_ty ++ encodeInMap e.params ++ encodeOutMap e.result))

/-- Decode one binding-table entry; `tb` is the full type-table size, `bb`
the number of binding entries decoded so far. -/
def decodeBindingEntry (tb bb : Nat) : List Nat → Except String (NamedFunctionBinding × List Nat)
  | 0 :: ts =>
    match decodeOptName ts with
    | .ok (nm, wasm_ty :: ts) =>
      match decodeRef tb ts with
      | .ok (wt, ts) =>
        match decodeOutMap tb bb ts with
        | .ok (ps, ts) =>
          match decodeInMap tb bb ts with
          | .ok (res, ts) => .ok (⟨nm, .Import ⟨wasm_ty, wt, ps, res⟩⟩, ts)
          | .error e => .error e
        | .error e => .error e
      | .error e => .error e
    | .ok (_, []) => .error "truncated"
    | .error e => .error e
  | 1 :: ts =>
    match decodeOptName ts with
    | .ok (nm, wasm_ty :: ts) =>
      match decodeRef tb ts with
      | .ok (wt, ts) =>
        match decodeInMap tb bb ts with
        | .ok (ps, ts) =>
          match decodeOutMap tb bb ts with
          | .ok (res, ts) => .ok (⟨nm, .Export ⟨wasm_ty, wt, ps, res⟩⟩, ts)
          | .error e => .error e
        | .error e => .error e
      | .error e => .error e
    | .ok (_, []) => .error "truncated"
    | .error e => .error e
  | _ => .error "unknown direction tag"

/-- In-range check matching `decodeBindingEntry`. -/
def wfBinding (tb bb : Nat) : FunctionBinding → Bool
  | .Import i =>
    wfRef tb i.webidl_ty && wfOuts tb bb i.params.bindings && wfIns tb bb i.result.bindings
  | .Export e =>
    wfRef tb e.webidl_ty && wfIns tb bb e.params.bindings && wfOuts tb bb e.result.bindings

theorem decodeBindingEntry_enc {tb bb : Nat} {b : NamedFunctionBinding}
    (h : wfBinding tb bb b.binding = true) (rest : List Nat) :
    decodeBindingEntry tb bb (encodeBindingEntry b ++ rest) = .ok (b, rest) := by
  obtain ⟨nm, fb⟩ := b
  cases fb with
  | Import i =>
    obtain ⟨wasm_ty, wt, ps, res⟩ := i
    simp only [wfBinding, Bool.and_eq_true] at h
    simp [encodeBindingEntry, decodeBindingEntry, decodeOptName_enc,
      decodeRef_enc h.1.1, decodeOutMap_enc h.1.2, decodeInMap_enc h.2]
  | Export e =>
    obtain ⟨wasm_ty, wt, ps, res⟩ := e
    simp only [wfBinding, Bool.and_eq_true] at h
    simp [encodeBindingEntry, decodeBindingEntry, decodeOptName_enc,
      decodeRef_enc h.1.1, decodeInMap_enc h.1.2, decodeOutMap_enc h.2]

/-- The binding table's entries, concatenated. -/
def encodeBindings : List NamedFunctionBinding → List Nat
  | [] => []
  | b :: bs => encodeBindingEntry b ++ encodeBindings bs

/-- Decode `n` binding-table entries; `k` counts entries already decoded. -/
def decodeBindings (tb : Nat) : Nat → Nat → List Nat → Except String (List NamedFunctionBinding × List Nat)
  | _, 0, ts => .ok ([], ts)
  | k, n + 1, ts =>
    match decodeBindingEntry tb k ts with
    | .ok (b, ts) =>
      match decodeBindings tb (k + 1) n ts with
      | .ok (out, ts) => .ok (b :: out, ts)
      | .error e => .error e
    | .error e => .error e

/-- Each binding entry may reference only strictly earlier binding entries. -/
def wfBindingsFrom (tb : Nat) : Nat → List NamedFunctionBinding → Bool
  | _, [] => true
  | k, b :: bs => wfBinding tb k b.binding && wfBindingsFrom tb (k + 1) bs

theorem decodeBindings_enc (tb : Nat) (bs : List NamedFunctionBinding) :
    ∀ (k : Nat) (rest : List Nat), wfBindingsFrom tb k bs = true →
      decodeBindings tb k bs.length (encodeBindings bs ++ rest) = .ok (bs, rest) := by
  induction bs with
  | nil => intro k rest _; rfl
  | cons b bs ih =>
    intro k rest h
    simp only [wfBindingsFrom, Bool.and_eq_true] at h
    have h1 := decodeBindingEntry_enc h.1 (encodeBindings bs ++ rest)
    simp only [encodeBindings, List.length_cons, List.append_assoc, decodeBindings, h1,
      ih (k + 1) rest h.2]

/-- A bind: host function index, binding-table index (§4.5 item 3). -/
def encodeBind (b : Bind) : List Nat := [b.func, b.binding]

/-- The bind table's entries, concatenated. -/
def encodeBinds : List Bind → List Nat
  | [] => []
  | b :: bs => encodeBind b ++ encodeBinds bs

/-- Decode `n` binds; the binding index must be below the decoded binding
table's size `bb`. -/
def decodeBinds (bb : Nat) : Nat → List Nat → Except String (List Bind × List Nat)
  | 0, ts => .ok ([], ts)
  | n + 1, f :: bi :: ts =>
    if bi < bb then
      match decodeBinds bb n ts with
      | .ok (out, ts) => .ok (⟨f, bi⟩ :: out, ts)
      | .error e => .error e
    else .error "binding index out of range"
  | _ + 1, _ => .error "truncated"

/-- In-range check matching `decodeBinds`. -/
def wfBinds (bb : Nat) : List Bind → Bool
  | [] => true
  | b :: bs => decide (b.binding < bb) && wfBinds bb bs

theorem decodeBinds_enc (bb : Nat) (bs : List Bind) :
    ∀ (rest : List Nat), wfBinds bb bs = true →
      decodeBinds bb bs.length (encodeBinds bs ++ rest) = .ok (bs, rest) := by
  induction bs with
  | nil => intro rest _; rfl
  | cons b bs ih =>
    intro rest h
    simp only [wfBinds, Bool.and_eq_true, decide_eq_true_eq] at h
    obtain ⟨f, bi⟩ := b
    simp only [encodeBinds, encodeBind, List.append_eq, List.length_cons, List.append_assoc,
      List.cons_append, List.nil_append, decodeBinds, if_pos h.1, ih rest h.2]

/-- Modelled from the spec: the whole section — Type Table, then Binding
Table, then Bind Table, each as a count followed by its entries (§4.5). -/
def encodeSection (m : CodecSection) : List Nat :=
  m.types.length :: (encodeTypes m.types ++
    m.bindings.length :: (encodeBindings m.bindings ++
      m.binds.length :: encodeBinds m.binds))

/-- Modelled from the spec: decoding proceeds strictly Type Table → Binding
Table → Bind Table, validates every tag and every cross-reference against
the tables decoded so far, rejects truncated and trailing input, and
returns no model on any failure. -/
def decodeSection (ts : List Nat) : Except String CodecSection :=
  match ts with
  | nt :: ts =>
    match decodeTypes 0 nt ts with
    | .ok (types, nb :: ts) =>
      match decodeBindings types.length 0 nb ts with
      | .ok (bindings, nk :: ts) =>
        match decodeBinds bindings.length nk ts with
        | .ok (binds, []) => .ok ⟨types, bindings, binds⟩
        | .ok (_, _ :: _) => .error "trailing input"
        | .error e => .error e
      | .ok (_, []) => .error "truncated"
      | .error e => .error e
    | .ok (_, []) => .error "truncated"
    | .error e => .error e
  | [] => .error "truncated"

/-- Well-formedness of an in-memory section: every cross-reference lands in
a table position that exists and, within a table, is strictly earlier. -/
def wellFormedSection (m : CodecSection) : Bool :=
  wfTypesFrom 0 m.types && wfBindingsFrom m.types.length 0 m.bindings &&
    wfBinds m.bindings.length m.binds

/-- C1: the binary codec round-trips — decoding the encoding of any
well-formed in-memory model yields exactly the same model: identical table
contents, order, and cross-references. -/
theorem decode_encode_roundtrip (m : CodecSection)
    (h : wellFormedSection m = true) :
    decodeSection (encodeSection m) = .ok m := by
  obtain ⟨types, bindings, binds⟩ := m
  simp only [wellFormedSection, Bool.and_eq_true] at h
  have h1 := decodeTypes_enc types 0
    (bindings.length :: (encodeBindings bindings ++ binds.length :: encodeBinds binds))
    h.1.1
  have h2 := decodeBindings_enc types.length bindings 0
    (binds.length :: encodeBinds binds) h.1.2
  have h3 := decodeBinds_enc bindings.length binds [] h.2
  simp only [List.append_nil] at h3
  simp [encodeSection, decodeSection, h1, h2, h3]

/-- Witness for `decode_encode_roundtrip`: a section with one named
dictionary type, one export binding whose result is a `Dict` expression
over two `As` slots, and one bind. -/
theorem decode_encode_roundtrip_witness :
    wellFormedSection
      ⟨[⟨some "dict", .Dictionary ⟨[⟨"x", .Scalar .Long⟩, ⟨"y", .Scalar .Long⟩]⟩⟩],
        [⟨some "b", .Export ⟨0, .Id 0, ⟨[]⟩,
          ⟨[.Dict (.Id 0) [.As (.Scalar .Long) 0, .As (.Scalar .Long) 1]]⟩⟩⟩],
        [⟨0, 0⟩]⟩ = true ∧
    decodeSection (encodeSection
      ⟨[⟨some "dict", .Dictionary ⟨[⟨"x", .Scalar .Long⟩, ⟨"y", .Scalar .Long⟩]⟩⟩],
        [⟨some "b", .Export ⟨0, .Id 0, ⟨[]⟩,
          ⟨[.Dict (.Id 0) [.As (.Scalar .Long) 0, .As (.Scalar .Long) 1]]⟩⟩⟩],
        [⟨0, 0⟩]⟩) = .ok
      ⟨[⟨some "dict", .Dictionary ⟨[⟨"x", .Scalar .Long⟩, ⟨"y", .Scalar .Long⟩]⟩⟩],
        [⟨some "b", .Export ⟨0, .Id 0, ⟨[]⟩,
          ⟨[.Dict (.Id 0) [.As (.Scalar .Long) 0, .As (.Scalar .Long) 1]]⟩⟩⟩],
        [⟨0, 0⟩]⟩ :=
  ⟨rfl, decode_encode_roundtrip _ rfl⟩

end WasmWebidlBindings
